import Mathlib

/-!
Verification development for the gitmate core: the deterministic intent
planner and output normalizer (src/gitmate/lib/postprocess.py) and the
repository state prober (src/gitmate/lib/git_probes.py).

The planner data model (GitContext) and each per-intent planner are
translated directly from the source.  Counts are modelled as integers,
as in the source, where they come from an unchecked int() conversion.
-/

/-- Mirror of the GitContext dataclass of postprocess.py. -/
structure GitContext where
  is_repo : Bool
  branch : Option String
  is_detached : Bool
  staged_count : Int
  unstaged_count : Int
  has_uncommitted : Bool
  remote_exists : Bool
  upstream_set : Bool

/-- GitContext.worktree_state property: classify the working tree from the
staged and unstaged counts, exactly as the source chain of conditionals. -/
def worktree_state (ctx : GitContext) : String :=
  if ctx.staged_count = 0 ∧ ctx.unstaged_count = 0 then "clean"
  else if ctx.staged_count > 0 ∧ ctx.unstaged_count = 0 then "staged"
  else if ctx.staged_count = 0 ∧ ctx.unstaged_count > 0 then "unstaged"
  else "partial"

/-- plan_commit from postprocess.py. -/
def plan_commit (ctx : GitContext) : List String :=
  if !ctx.is_repo then ["git init", "N/A"]
  else
    let commands := if ctx.is_detached then ["git switch main"] else []
    if worktree_state ctx = "unstaged" ∨ worktree_state ctx = "partial" then
      commands ++ ["git add .", "git commit -m \"<message>\""]
    else if worktree_state ctx = "staged" then
      commands ++ ["git commit -m \"<message>\""]
    else
      commands ++ ["N/A"]

/-- plan_push from postprocess.py. -/
def plan_push (ctx : GitContext) : List String :=
  if !ctx.is_repo then
    ["git init", "git remote add origin <url>", "git push -u origin main"]
  else
    let pre := if ctx.is_detached then ["git switch main"] else []
    let localSteps :=
      if worktree_state ctx = "unstaged" ∨ worktree_state ctx = "partial" then
        ["git add .", "git commit -m \"<message>\""]
      else if worktree_state ctx = "staged" then
        ["git commit -m \"<message>\""]
      else []
    let remoteSteps :=
      if !ctx.remote_exists then
        ["git remote add origin <url>", "git push -u origin main"]
      else if ctx.upstream_set then ["git push"]
      else ["git push -u origin main"]
    pre ++ localSteps ++ remoteSteps

/-- plan_pull from postprocess.py. -/
def plan_pull (ctx : GitContext) : List String :=
  if !ctx.is_repo then ["N/A"]
  else if !ctx.remote_exists ∨ !ctx.upstream_set then
    if ctx.is_detached then ["git switch main", "N/A"] else ["N/A"]
  else if ctx.is_detached then ["git switch main", "git pull"]
  else ["git pull"]

/-- plan_show_remotes from postprocess.py. -/
def plan_show_remotes (ctx : GitContext) : List String :=
  if ctx.is_repo then ["git remote -v"] else ["N/A"]

/-- plan_add_all from postprocess.py. -/
def plan_add_all (ctx : GitContext) : List String :=
  if !ctx.is_repo then ["git init", "git add ."] else ["git add ."]

/-- plan_switch_main from postprocess.py. -/
def plan_switch_main (ctx : GitContext) : List String :=
  if !ctx.is_repo then ["N/A"] else ["git switch main"]

/-- plan_create_feature from postprocess.py. -/
def plan_create_feature (ctx : GitContext) : List String :=
  if !ctx.is_repo then ["git init", "git branch feature"]
  else if ctx.is_detached then ["git switch main", "git branch feature"]
  else ["git branch feature"]

/-- plan_initialize_repo from postprocess.py. -/
def plan_initialize_repo (ctx : GitContext) : List String :=
  if !ctx.is_repo then ["git init"] else ["N/A"]

/-- plan_show_status from postprocess.py. -/
def plan_show_status (ctx : GitContext) : List String :=
  if ctx.is_repo then ["git status"] else ["N/A"]

/-- plan_show_log from postprocess.py. -/
def plan_show_log (ctx : GitContext) : List String :=
  if ctx.is_repo then ["git log --oneline"] else ["N/A"]

/-- The fixed intent vocabulary of the planner (the KNOWN_INTENTS set of
postprocess.py, which is also exactly the set of labels dispatched by
plan_by_intent). -/
def KNOWN_INTENTS : List String :=
  ["push to remote", "pull latest changes", "show remotes", "add all files",
   "commit my changes", "switch to main branch",
   "create a new branch called feature", "initialize a repo",
   "show me the status", "show commit history"]

/-- plan_by_intent from postprocess.py: dispatch on the intent label, with
a plain N/A plan for any label outside the vocabulary. -/
def plan_by_intent (intent : String) (ctx : GitContext) : List String :=
  if intent = "push to remote" then plan_push ctx
  else if intent = "pull latest changes" then plan_pull ctx
  else if intent = "show remotes" then plan_show_remotes ctx
  else if intent = "add all files" then plan_add_all ctx
  else if intent = "commit my changes" then plan_commit ctx
  else if intent = "switch to main branch" then plan_switch_main ctx
  else if intent = "create a new branch called feature" then plan_create_feature ctx
  else if intent = "initialize a repo" then plan_initialize_repo ctx
  else if intent = "show me the status" then plan_show_status ctx
  else if intent = "show commit history" then plan_show_log ctx
  else ["N/A"]

/-- A GitContext outside any repository, all other fields at defaults. -/
def noRepoCtx : GitContext :=
  { is_repo := false, branch := none, is_detached := false,
    staged_count := 0, unstaged_count := 0, has_uncommitted := false,
    remote_exists := false, upstream_set := false }

/-- A GitContext outside any repository but with the detached flag set
(reachable from the YAML context string the planner parses). -/
def noRepoDetachedCtx : GitContext :=
  { is_repo := false, branch := none, is_detached := true,
    staged_count := 0, unstaged_count := 0, has_uncommitted := false,
    remote_exists := false, upstream_set := false }

/-- A GitContext inside a repository, detached, clean worktree. -/
def detachedCleanCtx : GitContext :=
  { is_repo := true, branch := none, is_detached := true,
    staged_count := 0, unstaged_count := 0, has_uncommitted := false,
    remote_exists := true, upstream_set := true }

/-- A GitContext on main with a staged-only worktree. -/
def stagedOnlyCtx : GitContext :=
  { is_repo := true, branch := some "main", is_detached := false,
    staged_count := 2, unstaged_count := 0, has_uncommitted := true,
    remote_exists := true, upstream_set := true }

/-- A GitContext on main, clean, with remote and upstream configured. -/
def mainCleanUpstreamCtx : GitContext :=
  { is_repo := true, branch := some "main", is_detached := false,
    staged_count := 0, unstaged_count := 0, has_uncommitted := false,
    remote_exists := true, upstream_set := true }

/-!
Repository state prober, translated from git_probes.py.  The on-disk
repository read through dulwich is abstracted into a RepoData record holding
exactly the facts the prober consumes: the chain of refs HEAD resolves to,
the HEAD commit id, the three file lists of the porcelain status call, the
ref names of the repository, and the two per-branch config lookups (which
return none where the source raises KeyError).  A path that is not inside a
working tree is the none case of the Option input, standing for the caught
NotGitRepository exception.
-/

/-- Abstraction of the repository facts read by describe_repo. -/
structure RepoData where
  followRefs : List (Option String)
  headSha : String
  stagedFiles : List (List String)
  unstagedFiles : List String
  untrackedFiles : List String
  refs : List String
  branchRemote : String → Option String
  branchMerge : String → Option String

/-- The fixed-shape RepoState fact set emitted by the prober. -/
structure RepoState where
  is_repo : Bool
  branch : Option String
  is_detached : Bool
  staged_count : Nat
  unstaged_count : Nat
  has_uncommitted : Bool
  remote_exists : Bool
  upstream_set : Bool
deriving DecidableEq

/-- Character-level worker for lastSegment: the text after the last slash. -/
def lastSegmentAux : List Char → List Char → List Char
  | acc, [] => acc.reverse
  | _, '/' :: rest => lastSegmentAux [] rest
  | acc, c :: rest => lastSegmentAux (c :: acc) rest

/-- Last slash-separated segment of a name, as rsplit of the source:
the whole name when it holds no slash. -/
def lastSegment (s : String) : String :=
  String.mk (lastSegmentAux [] s.data)

/-- Prefix test on strings, character by character. -/
def strStartsWith (s p : String) : Bool :=
  p.data.isPrefixOf s.data

/-- The branch-name half of _follow_head: the first candidate ref in the
chain that is present, nonempty and under refs/heads/ gives the branch
short name; otherwise the head is detached. -/
def followHeadBranch (d : RepoData) : Option String :=
  match d.followRefs.find? (fun c =>
      match c with
      | some r => r ≠ "" && strStartsWith r "refs/heads/"
      | none => false) with
  | some (some r) => some (lastSegment r)
  | _ => none

/-- describe_repo from git_probes.py over the abstracted repository input.
The none input is the NotGitRepository case, answered by the all-default
state; otherwise every field is computed as in the source. -/
def describe_repo (input : Option RepoData) : RepoState :=
  match input with
  | none =>
    { is_repo := false, branch := none, is_detached := false,
      staged_count := 0, unstaged_count := 0, has_uncommitted := false,
      remote_exists := false, upstream_set := false }
  | some d =>
    let branch := followHeadBranch d
    let is_detached := branch.isNone
    let staged_count := (d.stagedFiles.map List.length).sum
    let unstaged_count := d.unstagedFiles.length + d.untrackedFiles.length
    let has_uncommitted :=
      staged_count ≠ 0 || unstaged_count ≠ 0 || !d.untrackedFiles.isEmpty
    let remote_exists := d.refs.any (fun r => strStartsWith r "refs/remotes/")
    let upstream_set :=
      match branch with
      | some b =>
        if b = "" then false
        else
          match d.branchRemote b, d.branchMerge b with
          | some rn, some mr =>
            decide (("refs/remotes/" ++ rn ++ "/" ++ lastSegment mr) ∈ d.refs)
          | _, _ => false
      | none => false
    { is_repo := true,
      branch := some (match branch with
        | some b => if b = "" then d.headSha else b
        | none => d.headSha),
      is_detached := is_detached,
      staged_count := staged_count,
      unstaged_count := unstaged_count,
      has_uncommitted := has_uncommitted,
      remote_exists := remote_exists,
      upstream_set := upstream_set }

/-!
Output normalizer, translated from normalize_commit_messages,
normalize_remote_urls and normalize_output of postprocess.py.  Text is a
list of characters.  The two regular expressions are hand-compiled to
deterministic matchers with the exact Python re semantics they exercise:

COMMIT_RE, per line, case-insensitive:
  group 1 is the empty string at position 0 or one whitespace character,
  then git, whitespace, commit, whitespace, -m (group 2, kept verbatim in
  the replacement), then whitespace and a message token, which is a
  double-quoted span, else a single-quoted span, else a maximal nonblank
  run, in that alternation order.  re.sub scans left to right, replaces the
  leftmost match by group1 + group2 + one space + the quoted message
  placeholder, and resumes after the match.

REMOTE_ADD_RE, multiline, case-insensitive:
  at the start of the text or just after a newline, a whitespace run
  (group indent, may span newlines), git remote add origin (group head),
  whitespace, a maximal nonblank run, then trailing whitespace up to a line
  end.  The trailing group backtracks greedily, so it consumes through the
  last newline of the whitespace run that follows the token, exclusive;
  when no newline follows and the run does not end the text, the whole
  match fails.  The replacement is indent + head + a space and the url
  placeholder, the trailing group is dropped.

Python str.splitlines and its line-boundary character set (including the
two-character boundary carriage-return newline) are modelled directly; the
whitespace class is the Python regex unicode whitespace set.
-/

/-- The characters the Python regex whitespace class matches. -/
def pySpaceChars : List Char :=
  [' ', '\t', '\n', '\r', '\x0b', '\x0c',
   '\x1c', '\x1d', '\x1e', '\x1f', '\u0085', ' ', ' ',
   ' ', ' ', ' ', ' ', ' ', ' ', ' ',
   ' ', ' ', ' ', ' ', ' ', ' ', ' ',
   ' ', '　']

/-- Whitespace test for the regex matchers. -/
def isPySpace (c : Char) : Bool := pySpaceChars.contains c

/-- The line boundary characters of Python str.splitlines. -/
def lineBoundaryChars : List Char :=
  ['\n', '\r', '\x0b', '\x0c', '\x1c', '\x1d', '\x1e', '\u0085',
   ' ', ' ']

/-- Line boundary test for splitlines. -/
def isLineBoundary (c : Char) : Bool := lineBoundaryChars.contains c

/-- Worker for splitlines: acc holds the current line reversed.  A final
line break does not open a further empty line, as in Python. -/
def splitlinesAux : List Char → List Char → List (List Char)
  | acc, [] => if acc.isEmpty then [] else [acc.reverse]
  | acc, '\r' :: '\n' :: rest => acc.reverse :: splitlinesAux [] rest
  | acc, c :: rest =>
    if isLineBoundary c then acc.reverse :: splitlinesAux [] rest
    else splitlinesAux (c :: acc) rest

/-- Python str.splitlines on character lists. -/
def splitlines (s : List Char) : List (List Char) := splitlinesAux [] s

/-- Case-insensitive literal matcher: consume the literal (given in
lowercase) and return the consumed text and the rest. -/
def matchLitCI : List Char → List Char → Option (List Char × List Char)
  | [], s => some ([], s)
  | _ :: _, [] => none
  | l :: ls, c :: cs =>
    if c.toLower = l then
      match matchLitCI ls cs with
      | some (m, r) => some (c :: m, r)
      | none => none
    else none

/-- Maximal nonempty run of characters satisfying p (greedy plus). -/
def matchRun (p : Char → Bool) (s : List Char) : Option (List Char × List Char) :=
  let m := s.takeWhile p
  if m.isEmpty then none else some (m, s.dropWhile p)

/-- One or more whitespace characters, greedy. -/
def matchSpaces1 : List Char → Option (List Char × List Char) :=
  matchRun isPySpace

/-- One or more nonblank characters, greedy. -/
def matchTok : List Char → Option (List Char × List Char) :=
  matchRun (fun c => !isPySpace c)

/-- A quoted span: an opening quote, characters other than the quote, and a
closing quote.  Fails when no closing quote follows. -/
def matchQuoted (q : Char) : List Char → Option (List Char × List Char)
  | c :: t =>
    if c = q then
      match t.dropWhile (fun x => x != q) with
      | _ :: rest => some (q :: (t.takeWhile (fun x => x != q) ++ [q]), rest)
      | [] => none
    else none
  | [] => none

/-- The message token of COMMIT_RE: double-quoted, else single-quoted,
else a maximal nonblank run, in the alternation order of the pattern. -/
def matchMsgTok (s : List Char) : Option (List Char × List Char) :=
  match matchQuoted '"' s with
  | some p => some p
  | none =>
    match matchQuoted '\'' s with
    | some p => some p
    | none => matchTok s

/-- Group 2 of COMMIT_RE: git, whitespace, commit, whitespace, -m. -/
def commitHead (s : List Char) : Option (List Char × List Char) :=
  match matchLitCI "git".data s with
  | none => none
  | some (m1, r1) =>
    match matchSpaces1 r1 with
    | none => none
    | some (m2, r2) =>
      match matchLitCI "commit".data r2 with
      | none => none
      | some (m3, r3) =>
        match matchSpaces1 r3 with
        | none => none
        | some (m4, r4) =>
          match matchLitCI "-m".data r4 with
          | none => none
          | some (m5, r5) => some (m1 ++ m2 ++ m3 ++ m4 ++ m5, r5)

/-- COMMIT_RE from the current position onward, group 1 aside: the head,
whitespace and the message token; returns the head text (kept verbatim in
the replacement) and the rest after the whole match. -/
def commitCore (s : List Char) : Option (List Char × List Char) :=
  match commitHead s with
  | none => none
  | some (hd, r1) =>
    match matchSpaces1 r1 with
    | none => none
    | some (_, r2) =>
      match matchMsgTok r2 with
      | none => none
      | some (_, r3) => some (hd, r3)

/-- The replacement tail: one space and the quoted message placeholder. -/
def msgLit : List Char := " \"<message>\"".data

/-- One match attempt of COMMIT_RE at the current position: the empty
group 1 first (only at the line start), else group 1 as one whitespace
character.  Returns the emitted replacement text and the rest. -/
def commitAttempt (atStart : Bool) (s : List Char) : Option (List Char × List Char) :=
  match (if atStart then commitCore s else none) with
  | some (hd, after) => some (hd ++ msgLit, after)
  | none =>
    match s with
    | c :: rest =>
      if isPySpace c then
        match commitCore rest with
        | some (hd, after) => some (c :: (hd ++ msgLit), after)
        | none => none
      else none
    | [] => none

/-- Length bookkeeping for matchLitCI. -/
def matchLitCI_len : ∀ (lit s m r : List Char),
    matchLitCI lit s = some (m, r) → s.length = lit.length + r.length := by
  intro lit
  induction lit with
  | nil =>
    intro s m r h
    simp only [matchLitCI, Option.some.injEq, Prod.mk.injEq] at h
    obtain ⟨h1, h2⟩ := h
    subst h2
    simp
  | cons l ls ih =>
    intro s m r h
    cases s with
    | nil => simp [matchLitCI] at h
    | cons c cs =>
      simp only [matchLitCI] at h
      split_ifs at h with hc
      · cases hm : matchLitCI ls cs with
        | none => rw [hm] at h; simp at h
        | some p =>
          obtain ⟨m0, r0⟩ := p
          rw [hm] at h
          dsimp only at h
          simp only [Option.some.injEq, Prod.mk.injEq] at h
          have hlen := ih cs m0 r0 hm
          rw [← h.2]
          simp only [List.length_cons]
          omega

/-- Splitting a list at takeWhile and dropWhile preserves length. -/
def takeDrop_len : ∀ (p : Char → Bool) (s : List Char),
    s.length = (s.takeWhile p).length + (s.dropWhile p).length := by
  intro p s
  induction s with
  | nil => simp
  | cons c cs ih =>
    by_cases hc : p c
    · simp only [List.takeWhile_cons, List.dropWhile_cons, hc, if_true, List.length_cons]
      omega
    · simp only [List.takeWhile_cons, List.dropWhile_cons, hc, Bool.false_eq_true,
        if_false, List.length_cons, List.length_nil]
      omega

/-- Length bookkeeping for matchRun. -/
def matchRun_len : ∀ (p : Char → Bool) (s m r : List Char),
    matchRun p s = some (m, r) → s.length = m.length + r.length ∧ m ≠ [] := by
  intro p s m r h
  simp only [matchRun] at h
  split_ifs at h with he
  simp only [Option.some.injEq, Prod.mk.injEq] at h
  obtain ⟨h1, h2⟩ := h
  constructor
  · rw [← h1, ← h2]
    exact takeDrop_len p s
  · intro hnil
    apply he
    rw [h1, hnil]
    rfl

/-- Length bookkeeping for matchQuoted. -/
def matchQuoted_len : ∀ (q : Char) (s m r : List Char),
    matchQuoted q s = some (m, r) → s.length = m.length + r.length ∧ m ≠ [] := by
  intro q s m r h
  cases s with
  | nil => simp [matchQuoted] at h
  | cons c t =>
    simp only [matchQuoted] at h
    split_ifs at h with hc
    · cases hd : t.dropWhile (fun x => x != q) with
      | nil => rw [hd] at h; simp at h
      | cons x rest =>
        rw [hd] at h
        dsimp only at h
        simp only [Option.some.injEq, Prod.mk.injEq] at h
        obtain ⟨h1, h2⟩ := h
        have hlen : t.length = (t.takeWhile (fun x => x != q)).length + (x :: rest).length := by
          rw [← hd]
          exact takeDrop_len _ t
        simp only [List.length_cons] at hlen
        constructor
        · rw [← h1, ← h2]
          simp only [List.length_cons, List.length_append, List.length_nil]
          omega
        · rw [← h1]
          simp

/-- Length bookkeeping for matchMsgTok. -/
def matchMsgTok_len : ∀ (s m r : List Char),
    matchMsgTok s = some (m, r) → s.length = m.length + r.length ∧ m ≠ [] := by
  intro s m r h
  simp only [matchMsgTok] at h
  cases h1 : matchQuoted '"' s with
  | some p =>
    obtain ⟨m0, r0⟩ := p
    rw [h1] at h
    dsimp only at h
    simp only [Option.some.injEq, Prod.mk.injEq] at h
    obtain ⟨ha, hb⟩ := h
    subst ha
    subst hb
    exact matchQuoted_len _ _ _ _ h1
  | none =>
    rw [h1] at h
    dsimp only at h
    cases h2 : matchQuoted '\'' s with
    | some p =>
      obtain ⟨m0, r0⟩ := p
      rw [h2] at h
      dsimp only at h
      simp only [Option.some.injEq, Prod.mk.injEq] at h
      obtain ⟨ha, hb⟩ := h
      subst ha
      subst hb
      exact matchQuoted_len _ _ _ _ h2
    | none =>
      rw [h2] at h
      dsimp only at h
      exact matchRun_len _ _ _ _ h

/-- The rest after a commitHead match is shorter than the input. -/
def commitHead_lt : ∀ (s hd r : List Char),
    commitHead s = some (hd, r) → r.length < s.length := by
  intro s hd r h
  simp only [commitHead] at h
  cases h1 : matchLitCI "git".data s with
  | none => rw [h1] at h; simp at h
  | some p1 =>
    obtain ⟨m1, r1⟩ := p1
    rw [h1] at h
    dsimp only at h
    cases h2 : matchSpaces1 r1 with
    | none => rw [h2] at h; simp at h
    | some p2 =>
      obtain ⟨m2, r2⟩ := p2
      rw [h2] at h
      dsimp only at h
      cases h3 : matchLitCI "commit".data r2 with
      | none => rw [h3] at h; simp at h
      | some p3 =>
        obtain ⟨m3, r3⟩ := p3
        rw [h3] at h
        dsimp only at h
        cases h4 : matchSpaces1 r3 with
        | none => rw [h4] at h; simp at h
        | some p4 =>
          obtain ⟨m4, r4⟩ := p4
          rw [h4] at h
          dsimp only at h
          cases h5 : matchLitCI "-m".data r4 with
          | none => rw [h5] at h; simp at h
          | some p5 =>
            obtain ⟨m5, r5⟩ := p5
            rw [h5] at h
            dsimp only at h
            simp only [Option.some.injEq, Prod.mk.injEq] at h
            have e1 := matchLitCI_len _ _ _ _ h1
            have e2 := (matchRun_len _ _ _ _ h2).1
            have e3 := matchLitCI_len _ _ _ _ h3
            have e4 := (matchRun_len _ _ _ _ h4).1
            have e5 := matchLitCI_len _ _ _ _ h5
            have hg : ("git".data).length = 3 := by decide
            have hm : ("-m".data).length = 2 := by decide
            rw [← h.2]
            omega

/-- The rest after a commitCore match is shorter than the input. -/
def commitCore_lt : ∀ (s hd r : List Char),
    commitCore s = some (hd, r) → r.length < s.length := by
  intro s hd r h
  simp only [commitCore] at h
  cases h1 : commitHead s with
  | none => rw [h1] at h; simp at h
  | some p1 =>
    obtain ⟨hd1, r1⟩ := p1
    rw [h1] at h
    dsimp only at h
    cases h2 : matchSpaces1 r1 with
    | none => rw [h2] at h; simp at h
    | some p2 =>
      obtain ⟨m2, r2⟩ := p2
      rw [h2] at h
      dsimp only at h
      cases h3 : matchMsgTok r2 with
      | none => rw [h3] at h; simp at h
      | some p3 =>
        obtain ⟨m3, r3⟩ := p3
        rw [h3] at h
        dsimp only at h
        simp only [Option.some.injEq, Prod.mk.injEq] at h
        have e1 := commitHead_lt _ _ _ h1
        have e2 := (matchRun_len _ _ _ _ h2).1
        have e3 := matchMsgTok_len _ _ _ h3
        rw [← h.2]
        omega

/-- The rest after a commitAttempt match is shorter than the input. -/
def commitAttempt_lt : ∀ (a : Bool) (s e r : List Char),
    commitAttempt a s = some (e, r) → r.length < s.length := by
  intro a s e r h
  simp only [commitAttempt] at h
  cases hc : (if a then commitCore s else none) with
  | some p =>
    obtain ⟨hd, after⟩ := p
    rw [hc] at h
    dsimp only at h
    simp only [Option.some.injEq, Prod.mk.injEq] at h
    cases a with
    | false => simp at hc
    | true =>
      rw [if_pos rfl] at hc
      have := commitCore_lt _ _ _ hc
      rw [← h.2]
      exact this
  | none =>
    rw [hc] at h
    dsimp only at h
    cases s with
    | nil => simp at h
    | cons c rest =>
      dsimp only at h
      split_ifs at h with hsp
      cases h2 : commitCore rest with
      | none => rw [h2] at h; simp at h
      | some p =>
        obtain ⟨hd, after⟩ := p
        rw [h2] at h
        dsimp only at h
        simp only [Option.some.injEq, Prod.mk.injEq] at h
        have := commitCore_lt _ _ _ h2
        rw [← h.2]
        simp only [List.length_cons]
        omega

/-- The scanner of COMMIT_RE, as re.sub: try a match at each position from
left to right, replace and resume after the match, else copy one character
and move on.  The flag records whether the position is the line start. -/
def commitSubAux : Bool → List Char → List Char
  | _, [] => []
  | atStart, c :: rest =>
    match _h : commitAttempt atStart (c :: rest) with
    | some (e, after) => e ++ commitSubAux false after
    | none => c :: commitSubAux false rest
termination_by _ s => s.length
decreasing_by
  · simpa using commitAttempt_lt _ _ _ _ _h
  · simp

/-- Group head of REMOTE_ADD_RE: git, whitespace, remote, whitespace, add,
whitespace, origin. -/
def remoteHead (s : List Char) : Option (List Char × List Char) :=
  match matchLitCI "git".data s with
  | none => none
  | some (m1, r1) =>
    match matchSpaces1 r1 with
    | none => none
    | some (m2, r2) =>
      match matchLitCI "remote".data r2 with
      | none => none
      | some (m3, r3) =>
        match matchSpaces1 r3 with
        | none => none
        | some (m4, r4) =>
          match matchLitCI "add".data r4 with
          | none => none
          | some (m5, r5) =>
            match matchSpaces1 r5 with
            | none => none
            | some (m6, r6) =>
              match matchLitCI "origin".data r6 with
              | none => none
              | some (m7, r7) => some (m1 ++ m2 ++ m3 ++ m4 ++ m5 ++ m6 ++ m7, r7)

/-- Split a character list just after its last newline: the part before the
last newline and the part after it; none when it holds no newline. -/
def splitAtLastNl : List Char → Option (List Char × List Char)
  | [] => none
  | c :: rest =>
    match splitAtLastNl rest with
    | some (b, a) => some (c :: b, a)
    | none => if c = '\n' then some ([], rest) else none

/-- splitAtLastNl splits its input at a newline. -/
def splitAtLastNl_spec : ∀ (w b a : List Char),
    splitAtLastNl w = some (b, a) → w = b ++ '\n' :: a := by
  intro w
  induction w with
  | nil => intro b a h; simp [splitAtLastNl] at h
  | cons c rest ih =>
    intro b a h
    simp only [splitAtLastNl] at h
    cases hr : splitAtLastNl rest with
    | some p =>
      obtain ⟨b0, a0⟩ := p
      rw [hr] at h
      simp only [Option.some.injEq, Prod.mk.injEq] at h
      obtain ⟨h1, h2⟩ := h
      subst h2
      rw [← h1, ih b0 _ hr]
      simp
    | none =>
      rw [hr] at h
      split_ifs at h with hc
      simp only [Option.some.injEq, Prod.mk.injEq] at h
      obtain ⟨h1, h2⟩ := h
      subst h2
      rw [← h1, hc]
      simp

/-- The replacement tail of REMOTE_ADD_RE: one space and the url token. -/
def urlLit : List Char := " <url>".data

/-- One anchored match attempt of REMOTE_ADD_RE at a line start: indent,
head, whitespace, token, then the trailing whitespace resolved against the
line end as the greedy backtracking does: consume everything when the text
ends there, else consume up to the last newline of the run, exclusive, and
fail when that run holds no newline.  Returns the indent and head (kept in
the replacement), whether the resume position follows a newline, and the
rest. -/
def remoteCore (s : List Char) : Option (List Char × List Char × Bool × List Char) :=
  let ind := s.takeWhile isPySpace
  let s1 := s.dropWhile isPySpace
  match remoteHead s1 with
  | none => none
  | some (hd, r1) =>
    match matchSpaces1 r1 with
    | none => none
    | some (_, r2) =>
      match matchTok r2 with
      | none => none
      | some (_, r3) =>
        let w := r3.takeWhile isPySpace
        let r4 := r3.dropWhile isPySpace
        if r4.isEmpty then some (ind, hd, false, [])
        else
          match splitAtLastNl w with
          | none => none
          | some (b, a) =>
            some (ind, hd,
              (match b.getLast? with
                | some ch => ch == '\n'
                | none => false),
              '\n' :: (a ++ r4))

/-- Length bookkeeping for remoteHead. -/
def remoteHead_lt : ∀ (s hd r : List Char),
    remoteHead s = some (hd, r) → r.length < s.length := by
  intro s hd r h
  simp only [remoteHead] at h
  cases h1 : matchLitCI "git".data s with
  | none => rw [h1] at h; simp at h
  | some p1 =>
    obtain ⟨m1, r1⟩ := p1
    rw [h1] at h
    dsimp only at h
    cases h2 : matchSpaces1 r1 with
    | none => rw [h2] at h; simp at h
    | some p2 =>
      obtain ⟨m2, r2⟩ := p2
      rw [h2] at h
      dsimp only at h
      cases h3 : matchLitCI "remote".data r2 with
      | none => rw [h3] at h; simp at h
      | some p3 =>
        obtain ⟨m3, r3⟩ := p3
        rw [h3] at h
        dsimp only at h
        cases h4 : matchSpaces1 r3 with
        | none => rw [h4] at h; simp at h
        | some p4 =>
          obtain ⟨m4, r4⟩ := p4
          rw [h4] at h
          dsimp only at h
          cases h5 : matchLitCI "add".data r4 with
          | none => rw [h5] at h; simp at h
          | some p5 =>
            obtain ⟨m5, r5⟩ := p5
            rw [h5] at h
            dsimp only at h
            cases h6 : matchSpaces1 r5 with
            | none => rw [h6] at h; simp at h
            | some p6 =>
              obtain ⟨m6, r6⟩ := p6
              rw [h6] at h
              dsimp only at h
              cases h7 : matchLitCI "origin".data r6 with
              | none => rw [h7] at h; simp at h
              | some p7 =>
                obtain ⟨m7, r7⟩ := p7
                rw [h7] at h
                dsimp only at h
                simp only [Option.some.injEq, Prod.mk.injEq] at h
                have e1 := matchLitCI_len _ _ _ _ h1
                have e2 := (matchRun_len _ _ _ _ h2).1
                have e3 := matchLitCI_len _ _ _ _ h3
                have e4 := (matchRun_len _ _ _ _ h4).1
                have e5 := matchLitCI_len _ _ _ _ h5
                have e6 := (matchRun_len _ _ _ _ h6).1
                have e7 := matchLitCI_len _ _ _ _ h7
                have hg : ("git".data).length = 3 := by decide
                rw [← h.2]
                omega

/-- Length of a splitAtLastNl split. -/
def splitAtLastNl_len : ∀ (w b a : List Char),
    splitAtLastNl w = some (b, a) → w.length = b.length + 1 + a.length := by
  intro w b a h
  rw [splitAtLastNl_spec w b a h]
  simp only [List.length_append, List.length_cons]
  omega

/-- The rest after a remoteCore match is shorter than the input. -/
def remoteCore_lt : ∀ (s ind hd : List Char) (nls : Bool) (r : List Char),
    remoteCore s = some (ind, hd, nls, r) → r.length < s.length := by
  intro s ind hd nls r h
  simp only [remoteCore] at h
  have hsplit := takeDrop_len isPySpace s
  cases h1 : remoteHead (s.dropWhile isPySpace) with
  | none => rw [h1] at h; simp at h
  | some p1 =>
    obtain ⟨hd1, r1⟩ := p1
    rw [h1] at h
    dsimp only at h
    cases h2 : matchSpaces1 r1 with
    | none => rw [h2] at h; simp at h
    | some p2 =>
      obtain ⟨m2, r2⟩ := p2
      rw [h2] at h
      dsimp only at h
      cases h3 : matchTok r2 with
      | none => rw [h3] at h; simp at h
      | some p3 =>
        obtain ⟨m3, r3⟩ := p3
        rw [h3] at h
        dsimp only at h
        have e1 := remoteHead_lt _ _ _ h1
        have e2 := (matchRun_len _ _ _ _ h2).1
        have e3 := (matchRun_len _ _ _ _ h3).1
        have hsplit3 := takeDrop_len isPySpace r3
        split_ifs at h with hemp
        · simp only [Option.some.injEq, Prod.mk.injEq] at h
          rw [← h.2.2.2]
          simp only [List.length_nil]
          omega
        · cases h4 : splitAtLastNl (r3.takeWhile isPySpace) with
          | none => rw [h4] at h; simp at h
          | some p4 =>
            obtain ⟨b, a⟩ := p4
            rw [h4] at h
            dsimp only at h
            simp only [Option.some.injEq, Prod.mk.injEq] at h
            have e4 := splitAtLastNl_len _ _ _ h4
            rw [← h.2.2.2]
            simp only [List.length_cons, List.length_append]
            omega

/-- The scanner of REMOTE_ADD_RE, as re.sub with the start anchor: a match
is attempted only at the text start or just after a newline; on a match the
replacement is emitted and scanning resumes after it, else one character is
copied. -/
def remoteSubAux : Bool → List Char → List Char
  | _, [] => []
  | ls, c :: rest =>
    match _h : (if ls then remoteCore (c :: rest) else none) with
    | some (ind, hd, nls, after) => ind ++ hd ++ urlLit ++ remoteSubAux nls after
    | none => c :: remoteSubAux (c == '\n') rest
termination_by _ s => s.length
decreasing_by
  · split at _h
    · simpa using remoteCore_lt _ _ _ _ _ _h
    · simp at _h
  · simp

/-- normalize_commit_messages from postprocess.py: empty text is returned
as is; otherwise each line of splitlines is rewritten by the COMMIT_RE
scanner and the lines are joined with newlines. -/
def normalize_commit_messages (s : List Char) : List Char :=
  if s.isEmpty then s
  else List.intercalate ['\n'] ((splitlines s).map (commitSubAux true))

/-- normalize_remote_urls from postprocess.py: empty text is returned as
is; otherwise the REMOTE_ADD_RE scanner rewrites the text. -/
def normalize_remote_urls (s : List Char) : List Char :=
  if s.isEmpty then s else remoteSubAux true s

/-- normalize_output from postprocess.py: both rewrites in sequence. -/
def normalize_output (s : List Char) : List Char :=
  normalize_remote_urls (normalize_commit_messages s)

/-- Claim C1: for intent=commit with is_repo=true and is_detached=false, the
worktree_state classification is derived exactly from the two counts, and the
planner maps it to exactly three outcomes: clean yields the N/A sentinel,
staged yields commit only, unstaged and partial both yield add-then-commit;
no fourth outcome is possible. -/
theorem claim1_commit_worktree_mapping (ctx : GitContext)
    (h1 : ctx.is_repo = true) (h2 : ctx.is_detached = false) :
    (worktree_state ctx = "clean" ↔ ctx.staged_count = 0 ∧ ctx.unstaged_count = 0) ∧
    (worktree_state ctx = "staged" ↔ ctx.staged_count > 0 ∧ ctx.unstaged_count = 0) ∧
    (worktree_state ctx = "unstaged" ↔ ctx.staged_count = 0 ∧ ctx.unstaged_count > 0) ∧
    (worktree_state ctx = "clean" → plan_commit ctx = ["N/A"]) ∧
    (worktree_state ctx = "staged" → plan_commit ctx = ["git commit -m \"<message>\""]) ∧
    ((worktree_state ctx = "unstaged" ∨ worktree_state ctx = "partial") →
      plan_commit ctx = ["git add .", "git commit -m \"<message>\""]) ∧
    (plan_commit ctx = ["N/A"] ∨
      plan_commit ctx = ["git commit -m \"<message>\""] ∨
      plan_commit ctx = ["git add .", "git commit -m \"<message>\""]) := by
  unfold plan_commit worktree_state
  rw [h1, h2]
  split_ifs with hA hB hC <;> simp_all

/-- Concrete instance of claim C1 at a staged-only context. -/
theorem claim1_commit_worktree_mapping_inst :
    plan_commit stagedOnlyCtx = ["git commit -m \"<message>\""] := by
  have h := claim1_commit_worktree_mapping stagedOnlyCtx rfl rfl
  exact h.2.2.2.2.1 (by decide)

/-- Claim C2: the push planner. Outside a repository the plan is exactly
init, add-remote, push-with-upstream.  Inside a repository the plan is the
detached switch iff is_detached, then the staging steps selected by
worktree_state, then exactly one remote tail chosen by remote_exists and
upstream_set; the remote-add step never appears when a remote exists. -/
theorem claim2_push_plan_shape (ctx : GitContext) :
    (ctx.is_repo = false →
      plan_push ctx = ["git init", "git remote add origin <url>", "git push -u origin main"]) ∧
    (ctx.is_repo = true →
      plan_push ctx =
        (if ctx.is_detached then ["git switch main"] else []) ++
        (if worktree_state ctx = "unstaged" ∨ worktree_state ctx = "partial" then
            ["git add .", "git commit -m \"<message>\""]
          else if worktree_state ctx = "staged" then ["git commit -m \"<message>\""]
          else []) ++
        (if ctx.remote_exists = false then
            ["git remote add origin <url>", "git push -u origin main"]
          else if ctx.upstream_set then ["git push"]
          else ["git push -u origin main"]) ∧
      (ctx.remote_exists = true → "git remote add origin <url>" ∉ plan_push ctx)) := by
  constructor
  · intro h
    simp [plan_push, h]
  · intro h
    constructor
    · simp only [plan_push, h, Bool.not_true, Bool.false_eq_true, if_false]
      split_ifs <;> simp_all
    · intro hr
      simp only [plan_push, h, hr, Bool.not_true, Bool.false_eq_true, if_false]
      split_ifs <;> simp_all

/-- Concrete instance of claim C2: detached clean worktree with remote and
upstream set pushes with a plain push after switching to main. -/
theorem claim2_push_plan_shape_inst :
    plan_push detachedCleanCtx = ["git switch main", "git push"] := by
  have h := (claim2_push_plan_shape detachedCleanCtx).2 rfl
  rw [h.1]
  decide

/-- Claim C3 as stated is false: the six vocabulary intents other than
init, add, push and branch-create do not share one fixed response on
is_repo=false, because commit answers init-then-N/A while pull answers only
the N/A sentinel. -/
theorem claim3_counterexample :
    plan_by_intent "commit my changes" noRepoCtx = ["git init", "N/A"] ∧
    plan_by_intent "pull latest changes" noRepoCtx = ["N/A"] ∧
    plan_by_intent "commit my changes" noRepoCtx ≠
      plan_by_intent "pull latest changes" noRepoCtx := by
  refine ⟨by decide, by decide, by decide⟩

/-- Claim C3 (amended): for every vocabulary intent except init, add, push,
branch-create and commit, every context with is_repo=false yields the fixed
N/A sentinel plan, regardless of all other fields. -/
theorem claim3_not_a_repo_dominance (intent : String) (ctx : GitContext)
    (hmem : intent ∈ ["pull latest changes", "show remotes",
      "switch to main branch", "show me the status", "show commit history"])
    (h : ctx.is_repo = false) :
    plan_by_intent intent ctx = ["N/A"] := by
  simp only [List.mem_cons, List.not_mem_nil, or_false] at hmem
  rcases hmem with h' | h' | h' | h' | h' <;>
    subst h' <;>
    simp [plan_by_intent, plan_pull, plan_show_remotes, plan_switch_main,
      plan_show_status, plan_show_log, h]

/-- Concrete instance of amended claim C3 at intent=status. -/
theorem claim3_not_a_repo_dominance_inst :
    plan_by_intent "show me the status" noRepoCtx = ["N/A"] :=
  claim3_not_a_repo_dominance "show me the status" noRepoCtx (by decide) rfl

/-- Claim C4 as stated is false: with is_detached=true but is_repo=false the
commit plan starts with git init, not with the switch-to-main step (the
not-a-repo guard runs before the detached-HEAD guard). -/
theorem claim4_counterexample :
    (plan_commit noRepoDetachedCtx).head? = some "git init" ∧
    (plan_commit noRepoDetachedCtx).head? ≠ some "git switch main" := by
  refine ⟨by decide, by decide⟩

/-- Claim C4 (amended): inside a repository (is_repo=true), whenever
is_detached=true and the intent is branch-relative (commit, push,
branch-create), the returned plan begins with the switch-to-main step. -/
theorem claim4_detached_switch_first (ctx : GitContext)
    (h1 : ctx.is_repo = true) (h2 : ctx.is_detached = true) :
    (plan_commit ctx).head? = some "git switch main" ∧
    (plan_push ctx).head? = some "git switch main" ∧
    (plan_create_feature ctx).head? = some "git switch main" := by
  refine ⟨?_, ?_, ?_⟩
  · simp only [plan_commit, h1, h2, Bool.not_true, Bool.false_eq_true, if_false, if_true]
    split_ifs <;> simp
  · simp only [plan_push, h1, h2, Bool.not_true, Bool.false_eq_true, if_false, if_true]
    split_ifs <;> simp
  · simp [plan_create_feature, h1, h2]

/-- Concrete instance of amended claim C4. -/
theorem claim4_detached_switch_first_inst :
    (plan_commit detachedCleanCtx).head? = some "git switch main" :=
  (claim4_detached_switch_first detachedCleanCtx rfl rfl).1

/-- Claim C5: the pull planner inside a repository yields a plain pull iff
both remote_exists and upstream_set hold, otherwise the N/A sentinel, in
both cases prefixed by the switch-to-main step exactly when detached; and a
pull command never appears unless both flags hold. -/
theorem claim5_pull_guard (ctx : GitContext) (h : ctx.is_repo = true) :
    (ctx.remote_exists = true → ctx.upstream_set = true →
      plan_pull ctx = if ctx.is_detached then ["git switch main", "git pull"] else ["git pull"]) ∧
    ((ctx.remote_exists = false ∨ ctx.upstream_set = false) →
      plan_pull ctx = if ctx.is_detached then ["git switch main", "N/A"] else ["N/A"]) ∧
    ("git pull" ∈ plan_pull ctx → ctx.remote_exists = true ∧ ctx.upstream_set = true) := by
  refine ⟨?_, ?_, ?_⟩
  · intro hr hu
    simp [plan_pull, h, hr, hu]
  · intro hd
    rcases hd with hd | hd <;> simp [plan_pull, h, hd]
  · intro hmem
    cases hr : ctx.remote_exists <;> cases hu : ctx.upstream_set <;>
      simp_all [plan_pull, h] <;> split_ifs at hmem <;> simp_all

/-- Concrete instance of claim C5: repo with remote and upstream, not
detached, pulls with a single git pull. -/
theorem claim5_pull_guard_inst :
    plan_pull mainCleanUpstreamCtx = ["git pull"] := by
  have h := (claim5_pull_guard mainCleanUpstreamCtx rfl).1 rfl rfl
  simpa using h

/-- Claim C6 as stated is false: an out-of-vocabulary label yields the plain
N/A sentinel plan; no plan element carries an Unknown-intent message naming
the label. -/
theorem claim6_counterexample :
    plan_by_intent "deploy to production" noRepoCtx = ["N/A"] ∧
    "Unknown intent: deploy to production" ∉
      plan_by_intent "deploy to production" noRepoCtx := by
  refine ⟨by decide, by decide⟩

/-- Claim C6 (amended): for every intent label outside the fixed vocabulary
and every context, the planner returns the N/A sentinel plan rather than
raising (plan_by_intent is total); the offending label is not echoed. -/
theorem claim6_unknown_intent (intent : String) (ctx : GitContext)
    (h : intent ∉ KNOWN_INTENTS) :
    plan_by_intent intent ctx = ["N/A"] := by
  simp only [KNOWN_INTENTS, List.mem_cons, List.not_mem_nil, or_false, not_or] at h
  obtain ⟨h1, h2, h3, h4, h5, h6, h7, h8, h9, h10⟩ := h
  simp [plan_by_intent, h1, h2, h3, h4, h5, h6, h7, h8, h9, h10]

/-- Concrete instance of amended claim C6. -/
theorem claim6_unknown_intent_inst :
    plan_by_intent "make coffee" noRepoCtx = ["N/A"] :=
  claim6_unknown_intent "make coffee" noRepoCtx (by decide)

/-- Claim C8: for a path not inside a version-controlled working tree the
prober answers the all-default RepoState (is_repo=false, branch absent,
not detached, zero counts, no uncommitted changes, no remote, no upstream);
the NotGitRepository exception is caught, so describe_repo is total and
never propagates it. -/
theorem claim8_not_a_repo_defaults :
    describe_repo none =
      { is_repo := false, branch := none, is_detached := false,
        staged_count := 0, unstaged_count := 0, has_uncommitted := false,
        remote_exists := false, upstream_set := false } := rfl

/-- Claim C9: when HEAD resolves to a known nonempty branch name,
upstream_set holds exactly when the branch config provides both a remote
name and a merge target and the constructed remote-tracking ref exists
among the repository refs; if either config key is absent, upstream_set is
false. -/
theorem claim9_upstream_detection (d : RepoData) (b : String)
    (hb : followHeadBranch d = some b) (hne : b ≠ "") :
    ((describe_repo (some d)).upstream_set = true ↔
      ∃ rn mr, d.branchRemote b = some rn ∧ d.branchMerge b = some mr ∧
        ("refs/remotes/" ++ rn ++ "/" ++ lastSegment mr) ∈ d.refs) ∧
    ((d.branchRemote b = none ∨ d.branchMerge b = none) →
      (describe_repo (some d)).upstream_set = false) := by
  constructor
  · simp only [describe_repo, hb, hne]
    cases hrn : d.branchRemote b <;> cases hmr : d.branchMerge b <;> simp
  · intro habs
    simp only [describe_repo, hb, hne]
    rcases habs with habs | habs <;>
      cases hx : d.branchMerge b <;> cases hy : d.branchRemote b <;> simp_all

/-- Concrete instance of claim C9: a repo on main with origin remote and a
tracked upstream ref has upstream_set. -/
theorem claim9_upstream_detection_inst :
    (describe_repo (some
      { followRefs := [some "refs/heads/main"], headSha := "abc123",
        stagedFiles := [], unstagedFiles := [], untrackedFiles := [],
        refs := ["refs/heads/main", "refs/remotes/origin/main"],
        branchRemote := fun b => if b = "main" then some "origin" else none,
        branchMerge := fun b => if b = "main" then some "refs/heads/main" else none
        })).upstream_set = true := by
  have h := claim9_upstream_detection
    { followRefs := [some "refs/heads/main"], headSha := "abc123",
      stagedFiles := [], unstagedFiles := [], untrackedFiles := [],
      refs := ["refs/heads/main", "refs/remotes/origin/main"],
      branchRemote := fun b => if b = "main" then some "origin" else none,
      branchMerge := fun b => if b = "main" then some "refs/heads/main" else none
      } "main" (by decide) (by decide)
  exact h.1.mpr ⟨"origin", "refs/heads/main", by simp, by simp, by decide⟩

/-- Claim C10: the prober folds untracked files into unstaged_count, and
has_uncommitted holds exactly when staged_count + unstaged_count is
positive. -/
theorem claim10_unstaged_untracked_fold (d : RepoData) :
    (describe_repo (some d)).unstaged_count =
      d.unstagedFiles.length + d.untrackedFiles.length ∧
    ((describe_repo (some d)).has_uncommitted = true ↔
      0 < (describe_repo (some d)).staged_count + (describe_repo (some d)).unstaged_count) := by
  refine ⟨rfl, ?_⟩
  simp only [describe_repo, Bool.or_eq_true, decide_eq_true_eq, ne_eq,
    Bool.not_eq_true']
  have hl : d.untrackedFiles.isEmpty = false ↔ d.untrackedFiles.length ≠ 0 := by
    cases d.untrackedFiles <;> simp
  rw [hl]
  omega

/-- Claim C7 concerns idempotence of the normalizer; the code breaks it on
the two-newline text: normalize_commit_messages splits the text into lines
and joins them with single newlines, and a terminal line break yields no
line of its own in splitlines, so each application strips one trailing
newline.  This theorem evaluates the code at the failing input: one
application yields a single newline, a second application yields the empty
text, so normalize(normalize x) differs from normalize(x), against the
spec and the idempotence stated in the docstrings of the source. -/
theorem claim7_normalize_not_idempotent :
    normalize_output ['\n', '\n'] = ['\n'] ∧
    normalize_output (normalize_output ['\n', '\n']) = [] ∧
    normalize_output (normalize_output ['\n', '\n']) ≠ normalize_output ['\n', '\n'] := by
  have hsub_nil : ∀ a : Bool, commitSubAux a [] = [] := by
    intro a
    simp [commitSubAux]
  have hs2 : splitlines ['\n', '\n'] = [[], []] := by decide
  have hcm2 : normalize_commit_messages ['\n', '\n'] = ['\n'] := by
    rw [normalize_commit_messages, if_neg (by decide), hs2]
    rw [List.map_cons, List.map_cons, List.map_nil, hsub_nil]
    decide
  have hrcore : remoteCore ['\n'] = none := by decide
  have hrm1 : remoteSubAux true ['\n'] = ['\n'] := by
    rw [remoteSubAux]
    split
    · rename_i ind hd nls after heq
      rw [hrcore] at heq
      simp at heq
    · simp [remoteSubAux]
  have hno1 : normalize_output ['\n', '\n'] = ['\n'] := by
    rw [normalize_output, hcm2, normalize_remote_urls, if_neg (by decide), hrm1]
  have hs1 : splitlines ['\n'] = [[]] := by decide
  have hcm1 : normalize_commit_messages ['\n'] = [] := by
    rw [normalize_commit_messages, if_neg (by decide), hs1]
    rw [List.map_cons, List.map_nil, hsub_nil]
    decide
  have hno2 : normalize_output ['\n'] = [] := by
    rw [normalize_output, hcm1, normalize_remote_urls, if_pos (by decide)]
  refine ⟨hno1, ?_, ?_⟩
  · rw [hno1, hno2]
  · rw [hno1, hno2]
    decide
